import Mathlib

/-!
# Verification of the go-chd CHD MPHF library against its specification

Shallow embedding of the CHD minimal-perfect-hash construction (chd.go),
its binary codec (marshal.go), and the constant-DB writer/reader index path
(dbwriter.go / dbreader.go).  Go's `uint64` values are modelled as `Nat`
with explicit reduction `% 2^64` wherever Go arithmetic can wrap; Go
runtime panics (index out of range) are modelled as `none` / `.crash`
results.  The builder's `map[uint64]bool` iteration order and `sort.Sort`'s
instability are modelled by taking the key list (in some iteration order)
as input and using a deterministic sort with the same comparator.
-/

/-- compression function for fasthash (chd.go `mix`): `h ^= h >> 23;
h *= 0x2127599bf4325c37; h ^= h >> 47`, on wrapping 64-bit words. -/
def mix (h : Nat) : Nat :=
  let h1 := h ^^^ (h >>> 23)
  let h2 := (h1 * 0x2127599bf4325c37) % 2 ^ 64
  h2 ^^^ (h2 >>> 47)

/-- chd.go `rhash(seed, key, sz)`: `h := key + ^seed; h ^= mix(h);
h *= 0x880355f21e6d1965; return h & (sz - 1)`.  `^seed` is Go bitwise
complement, i.e. `2^64 - 1 - seed`; `sz - 1` wraps to `2^64 - 1` when
`sz = 0`.  There is no salt parameter in the source. -/
def rhash (seed key sz : Nat) : Nat :=
  let h0 := (key + (2 ^ 64 - 1 - seed % 2 ^ 64)) % 2 ^ 64
  let h1 := h0 ^^^ mix h0
  let h2 := (h1 * 0x880355f21e6d1965) % 2 ^ 64
  h2 &&& ((sz + (2 ^ 64 - 1)) % 2 ^ 64)

/-- Modelled from the spec (§4.1 realization): the salted two-level hash
`rhash(seed, key, m, salt)` that the spec claims the code computes, with
`h ← key; h *= K; h ^= mix(salt); h *= K; h ^= mix(seed); h *= K;
return mix(h) & (m-1)`.  This is a refinement comparator only: the source
`rhash` above has no salt argument. -/
def rhashSpec (seed key m salt : Nat) : Nat :=
  let h0 := (key * 0x880355f21e6d1965) % 2 ^ 64
  let h1 := h0 ^^^ mix salt
  let h2 := (h1 * 0x880355f21e6d1965) % 2 ^ 64
  let h3 := h2 ^^^ mix seed
  let h4 := (h3 * 0x880355f21e6d1965) % 2 ^ 64
  mix h4 &&& (m - 1)

/-- The six shift-or steps of chd.go `nextpow2` (after the initial
`n = n - 1`): `n |= n>>1; n |= n>>2; n |= n>>4; n |= n>>8; n |= n>>16;
n |= n>>32`. -/
def orCascade (x : Nat) : Nat :=
  let x1 := x ||| (x >>> 1)
  let x2 := x1 ||| (x1 >>> 2)
  let x3 := x2 ||| (x2 >>> 4)
  let x4 := x3 ||| (x3 >>> 8)
  let x5 := x4 ||| (x4 >>> 16)
  x5 ||| (x5 >>> 32)

/-- chd.go `nextpow2(n)`: `n = n - 1` (wrapping), the or-cascade, then
`n + 1` (wrapping). -/
def nextpow2 (n : Nat) : Nat :=
  (orCascade ((n + (2 ^ 64 - 1)) % 2 ^ 64) + 1) % 2 ^ 64

/-- chd.go `bucket`: the slot originally assigned to the bucket's keys and
the keys landing in it.  Go zero-initializes `slot` to 0; it is set to the
bucket index only when a key is appended. -/
structure Bucket where
  slot : Nat
  keys : List Nat
deriving DecidableEq, Repr

/-- The bucket array built by the first loop of `Freeze`: for each key
`k` (in map-iteration order, modelled by the list order), `j = rhash(0, k, m)`,
`buckets[j].slot = j`, and `k` is appended to `buckets[j].keys`.
Untouched buckets keep `slot = 0` and no keys. -/
def mkBuckets (keys : List Nat) (m : Nat) : List Bucket :=
  (List.range m).map fun j =>
    let ks := keys.filter fun k => rhash 0 k m == j
    { slot := if ks.isEmpty then 0 else j, keys := ks }

/-- Insertion step for `sortBuckets`. -/
def insertBucket (b : Bucket) : List Bucket → List Bucket
  | [] => [b]
  | c :: cs =>
    if c.keys.length < b.keys.length then b :: c :: cs else c :: insertBucket b cs

/-- `sort.Sort(buckets)` with `Less(i, j) = len(b[i].keys) > len(b[j].keys)`:
sort in decreasing order of occupancy.  Go's sort is unstable; ties may
appear in any order, modelled here by one deterministic insertion sort
with the same comparator. -/
def sortBuckets : List Bucket → List Bucket
  | [] => []
  | b :: bs => insertBucket b (sortBuckets bs)

/-- The inner key loop of `Freeze` for one candidate seed `s`: walk the
bucket's keys, hash each with `rhash(s, key, m)`, fail on any position
already in `occ` (global) or `bOcc` (this bucket), else record it in
`bOcc`.  The occupancy bit vectors of bitvector.go are modelled by their
sets of set bits (`IsSet` = membership, `Set` = cons, `Merge` = append,
`Reset` = `[]`). -/
def seedTry (m : Nat) (occ : List Nat) (s : Nat) : List Nat → List Nat → Option (List Nat)
  | [], bOcc => some bOcc
  | k :: ks, bOcc =>
    let h := rhash s k m
    if h ∈ occ ∨ h ∈ bOcc then none
    else seedTry m occ s ks (h :: bOcc)

/-- The seed search loop `for s := 1; s < _MaxSeed; s++` of `Freeze`,
with explicit fuel (`_MaxSeed - 1` attempts starting at `s`): returns the
first seed whose placement is collision-free, with the bucket's occupancy
set. -/
def findSeed (m : Nat) (occ : List Nat) (ks : List Nat) : Nat → Nat → Option (Nat × List Nat)
  | _, 0 => none
  | s, fuel + 1 =>
    match seedTry m occ s ks [] with
    | some bOcc => some (s, bOcc)
    | none => findSeed m occ ks (s + 1) fuel

/-- chd.go `_MaxSeed`. -/
def maxSeed : Nat := 1000000

/-- The main bucket-placement loop of `Freeze`: for each bucket in sorted
order, find a seed; on success `occ.Merge(bOcc)` and `seeds[b.slot] = s`.
Note the source runs this for empty buckets too: they succeed at the first
candidate seed and write `seeds[b.slot] = 1` with `b.slot = 0`. -/
def placeBuckets (m : Nat) : List Bucket → List Nat → List Nat → Option (List Nat)
  | [], _, seeds => some seeds
  | b :: bs, occ, seeds =>
    match findSeed m occ b.keys 1 (maxSeed - 1) with
    | none => none
    | some (s, bOcc) => placeBuckets m bs (bOcc ++ occ) (seeds.set b.slot s)

/-- chd.go `Chd`: the frozen PHF (the `tries` diagnostic counter is not
modelled; no claim mentions it). -/
structure Chd where
  seeds : List Nat
deriving DecidableEq, Repr

/-- Result of `ChdBuilder.Freeze` (`(*Chd, error)` in the source). -/
inductive FreezeResult
  | ok (c : Chd)
  | invalidLoad
  | mphFail
deriving DecidableEq, Repr

/-- chd.go `ChdBuilder.Freeze(load)`.  `load` is the `float64` argument,
modelled as a rational (every finite float64 is one, and Go's `<`/`>` on
finite floats agree with the rational order).  `d` stands for the value of
`uint64(float64(len(c.data)) / load)`, passed explicitly because float64
rounding is not modelled; claims instantiate `d` only where the float
computation is exact (e.g. `N=1, load=0.5 → d=2`; `N=2, load=0.5 → d=4`;
`N=0 → d=0`; `N=1, load=1 → d=1`).  The keys of the builder's
`map[uint64]bool` are passed as a list in iteration order.
The source validity check is `load < 0 || load > 1`. -/
def Freeze (load : ℚ) (d : Nat) (keys : List Nat) : FreezeResult :=
  if load < 0 ∨ load > 1 then .invalidLoad
  else
    let m := nextpow2 d
    match placeBuckets m (sortBuckets (mkBuckets keys m)) [] (List.replicate m 0) with
    | none => .mphFail
    | some seeds => .ok ⟨seeds⟩

/-- chd.go `Chd.Len()`. -/
def Chd.Len (c : Chd) : Nat := c.seeds.length

/-- chd.go `Chd.Find(k)`: `m := len(seeds); h := rhash(0, k, m);
return rhash(seeds[h], k, m)`.  `none` models the Go runtime panic when
`h` is outside the seed table (possible exactly when the table is empty,
since `rhash` masks with `m - 1`). -/
def Chd.Find (c : Chd) (k : Nat) : Option Nat :=
  let m := c.seeds.length
  match c.seeds[rhash 0 k m]? with
  | none => none
  | some s => some (rhash s k m)

/- ---------------------------------------------------------------- -/
/- Chd binary codec (marshal.go / its u64 revision)                 -/
/- ---------------------------------------------------------------- -/

/-- One `uint64` as 8 bytes in memory order on a little-endian host
(`u64sToByteSlice` reinterprets the word array in native order). -/
def u64ToBytesLE (v : Nat) : List Nat :=
  [v % 256, v / 2 ^ 8 % 256, v / 2 ^ 16 % 256, v / 2 ^ 24 % 256,
   v / 2 ^ 32 % 256, v / 2 ^ 40 % 256, v / 2 ^ 48 % 256, v / 2 ^ 56 % 256]

/-- mmap.go `bsToUint64Slice`: reinterpret a byte slice as `len/8` (truncated)
64-bit words, little-endian host order. -/
def bsToUint64List : List Nat → List Nat
  | b0 :: b1 :: b2 :: b3 :: b4 :: b5 :: b6 :: b7 :: rest =>
    (b0 + b1 * 2 ^ 8 + b2 * 2 ^ 16 + b3 * 2 ^ 24 + b4 * 2 ^ 32 +
      b5 * 2 ^ 40 + b6 * 2 ^ 48 + b7 * 2 ^ 56) :: bsToUint64List rest
  | _ => []

/-- marshal.go `Chd.MarshalBinary`: an 8-byte header (`_ChdHeaderSize = 8`)
whose byte 0 is the version (1) and bytes 1-7 are reserved zero, followed
by the seed words via `u64sToByteSlice(c.seeds)`. -/
def chdMarshal (c : Chd) : List Nat :=
  [1, 0, 0, 0, 0, 0, 0, 0] ++ c.seeds.flatMap u64ToBytesLE

/-- Result of `Chd.UnmarshalBinaryMmap`. -/
inductive CodecOut
  | ok (c : Chd)
  | badVersion
  | crash
deriving DecidableEq, Repr

/-- marshal.go `Chd.UnmarshalBinaryMmap(buf)`: slice the 8-byte header
(panic, modelled `.crash`, if the buffer is shorter), reject `hdr[0] ≠ 1`,
else reinterpret everything after the header as the seed words.  There is
no check on the body length: `bsToUint64Slice` silently truncates. -/
def chdUnmarshal : List Nat → CodecOut
  | b0 :: rest =>
    if rest.length < 7 then .crash
    else if b0 ≠ 1 then .badVersion
    else .ok ⟨bsToUint64List (rest.drop 7)⟩
  | [] => .crash

/- ---------------------------------------------------------------- -/
/- DB writer offset table and DB reader lookup path                 -/
/- ---------------------------------------------------------------- -/

/-- dbwriter.go `value`: per-key record offset and value length. -/
structure Value where
  off : Nat
  vlen : Nat
deriving DecidableEq, Repr

/-- dbwriter.go `DBWriter.marshalOffsets` table-filling loop: for each
`(k, r)` of `keymap` (map order modelled by the list), `i := c.Find(k)`;
`vlen[i] = r.vlen`; `offset[2i] = r.off`; `offset[2i+1] = k`.  The tables
start as `make([]uint64, 2n)` / `make([]uint32, n)` (all zero); `none`
models a panic inside `c.Find`. -/
def marshalOffsets (c : Chd) : List (Nat × Value) → List Nat → List Nat →
    Option (List Nat × List Nat)
  | [], offs, vlens => some (offs, vlens)
  | (k, r) :: rest, offs, vlens =>
    match c.Find k with
    | none => none
    | some i =>
      marshalOffsets c rest ((offs.set (2 * i) r.off).set (2 * i + 1) k)
        (vlens.set i r.vlen)

/-- Modelled from the spec: the little-endian endian helper
`to_le_u64` is the identity on little-endian hosts (the source ships only
the big-endian variant, endian_be.go; the little-endian file is not under
src/).  We model a little-endian host. -/
def toLittleEndianUint64 (v : Nat) : Nat := v

/-- Modelled from the spec: `to_le_u32`, identity on little-endian hosts. -/
def toLittleEndianUint32 (v : Nat) : Nat := v

/-- Error results of dbreader.go `DBReader.Find`. -/
inductive DBErr
  | noKey
  | corrupt
  | ioErr
deriving DecidableEq, Repr

/-- Outcome of dbreader.go `DBReader.Find`: a value, an error, or a Go
runtime panic (`.crash`). -/
inductive FindOut
  | val (v : List Nat)
  | fail (e : DBErr)
  | crash
deriving DecidableEq, Repr

/-- dbreader.go `DBReader.Find(key)` on the keys-and-values path
(`flags = 0`, cache miss — the ARC cache is empty before the first
lookup): `i := chd.Find(key); j := 2i;
if toLittleEndianUint64(offset[j]) != key → ErrNoKey;
vlen := toLittleEndianUint32(vlen[i]); off := toLittleEndianUint64(offset[j+1]);
decodeRecord(off, vlen)`.  `disk off vlen` abstracts `decodeRecord`:
seek + read + siphash verification; its outcome is a value byte slice, an
I/O error, or a corrupt-record error — never `ErrNoKey`.  Out-of-range
table indexing is `.crash`. -/
def dbFind (offset vlen : List Nat) (c : Chd) (disk : Nat → Nat → FindOut)
    (key : Nat) : FindOut :=
  match c.Find key with
  | none => .crash
  | some i =>
    match offset[2 * i]? with
    | none => .crash
    | some w =>
      if toLittleEndianUint64 w ≠ key then .fail .noKey
      else
        match vlen[i]?, offset[2 * i + 1]? with
        | some vl, some off =>
          disk (toLittleEndianUint64 off) (toLittleEndianUint32 vl)
        | _, _ => .crash

/-- dbreader.go `DBReader.Lookup(key)`: `v, err := rd.Find(key);
if err != nil { return nil, false }; return v, true`.  A panic in `Find`
propagates (`none`). -/
def dbLookup (offset vlen : List Nat) (c : Chd) (disk : Nat → Nat → FindOut)
    (key : Nat) : Option (Option (List Nat) × Bool) :=
  match dbFind offset vlen c disk key with
  | .crash => none
  | .fail _ => some (none, false)
  | .val v => some (some v, true)

/-- A disk model whose every record read fails with an I/O error. -/
def diskIoErr : Nat → Nat → FindOut := fun _ _ => .fail .ioErr

/-- A disk model whose every record read fails the siphash check. -/
def diskCorrupt : Nat → Nat → FindOut := fun _ _ => .fail .corrupt

/-- Window-coverage invariant for the `nextpow2` or-cascade: bit `i` of
`a` is set iff some bit of `x` in the window `[i, i + w)` is set. -/
def coversBelow (x a w : Nat) : Prop :=
  ∀ i, a.testBit i = true ↔ ∃ j, j < w ∧ x.testBit (i + j) = true

/- ---------------------------------------------------------------- -/
/- Helper lemmas                                                    -/
/- ---------------------------------------------------------------- -/

theorem rhash_le (seed key sz : Nat) :
    rhash seed key sz ≤ (sz + (2 ^ 64 - 1)) % 2 ^ 64 :=
  Nat.and_le_right

theorem coversBelow_self (x : Nat) : coversBelow x x 1 := by
  intro i
  constructor
  · intro h
    exact ⟨0, by omega, by simpa using h⟩
  · rintro ⟨j, hj, hb⟩
    have hj0 : j = 0 := by omega
    subst hj0
    simpa using hb

theorem coversBelow_step {x a w : Nat} (h : coversBelow x a w) :
    coversBelow x (a ||| a >>> w) (w + w) := by
  intro i
  rw [Nat.testBit_or, Nat.testBit_shiftRight, Bool.or_eq_true]
  constructor
  · rintro (ha | ha)
    · obtain ⟨j, hj, hb⟩ := (h i).mp ha
      exact ⟨j, by omega, hb⟩
    · obtain ⟨j, hj, hb⟩ := (h (w + i)).mp ha
      refine ⟨w + j, by omega, ?_⟩
      rw [show i + (w + j) = w + i + j by omega]
      exact hb
  · rintro ⟨j, hj, hb⟩
    by_cases hjw : j < w
    · exact Or.inl ((h i).mpr ⟨j, hjw, hb⟩)
    · refine Or.inr ((h (w + i)).mpr ⟨j - w, by omega, ?_⟩)
      rw [show w + i + (j - w) = i + j by omega]
      exact hb

theorem orCascade_covers (x : Nat) : coversBelow x (orCascade x) 64 := by
  have h1 := coversBelow_step (coversBelow_self x)
  have h2 := coversBelow_step h1
  have h3 := coversBelow_step h2
  have h4 := coversBelow_step h3
  have h5 := coversBelow_step h4
  have h6 := coversBelow_step h5
  norm_num at h6
  exact h6

theorem testBit_msb (x : Nat) (hx : 0 < x) :
    x.testBit (Nat.size x - 1) = true := by
  have hs1 : 1 ≤ Nat.size x := Nat.size_pos.mpr hx
  have hlow : 2 ^ (Nat.size x - 1) ≤ x := by
    by_contra hlt
    push_neg at hlt
    have := Nat.size_le.mpr hlt
    omega
  have hhigh : x < 2 ^ Nat.size x := Nat.lt_size_self x
  rw [Nat.testBit_to_div_mod]
  have hdiv : x / 2 ^ (Nat.size x - 1) = 1 := by
    apply Nat.div_eq_of_lt_le (by simpa using hlow)
    have hpow : (1 + 1) * 2 ^ (Nat.size x - 1) = 2 ^ Nat.size x := by
      rw [show (1 + 1) = 2 by norm_num, ← pow_succ']
      congr 1
      omega
    omega
  rw [hdiv]
  decide

theorem orCascade_eq_size (x : Nat) (hx : x < 2 ^ 63) :
    orCascade x = 2 ^ Nat.size x - 1 := by
  rcases Nat.eq_zero_or_pos x with h0 | hpos
  · subst h0
    rw [Nat.size_zero]
    decide
  · apply Nat.eq_of_testBit_eq
    intro i
    have hcov := orCascade_covers x i
    rw [Nat.testBit_two_pow_sub_one]
    have hsize : Nat.size x ≤ 63 := Nat.size_le.mpr hx
    by_cases hi : i < Nat.size x
    · have hmsb := testBit_msb x hpos
      have hset : (orCascade x).testBit i = true := by
        apply hcov.mpr
        refine ⟨Nat.size x - 1 - i, by omega, ?_⟩
        rw [show i + (Nat.size x - 1 - i) = Nat.size x - 1 by omega]
        exact hmsb
      rw [hset]
      simp [hi]
    · have hclear : (orCascade x).testBit i = false := by
        rcases hb : (orCascade x).testBit i with _ | _
        · rfl
        · obtain ⟨j, hj, hbit⟩ := hcov.mp hb
          have hz : x.testBit (i + j) = false := by
            apply Nat.testBit_lt_two_pow
            calc x < 2 ^ Nat.size x := Nat.lt_size_self x
              _ ≤ 2 ^ (i + j) := Nat.pow_le_pow_right (by norm_num) (by omega)
          rw [hz] at hbit
          exact absurd hbit (by simp)
      rw [hclear]
      simp
      omega

theorem nextpow2_eq_size (d : Nat) (h1 : 1 ≤ d) (h2 : d ≤ 2 ^ 63) :
    nextpow2 d = 2 ^ Nat.size (d - 1) := by
  unfold nextpow2
  have e1 : (d + (2 ^ 64 - 1)) % 2 ^ 64 = d - 1 := by omega
  rw [e1, orCascade_eq_size (d - 1) (by omega)]
  have hs : Nat.size (d - 1) ≤ 63 := Nat.size_le.mpr (by omega)
  have hb : 2 ^ Nat.size (d - 1) ≤ 2 ^ 63 := Nat.pow_le_pow_right (by norm_num) hs
  have hp : 0 < 2 ^ Nat.size (d - 1) := Nat.two_pow_pos _
  rw [show 2 ^ Nat.size (d - 1) - 1 + 1 = 2 ^ Nat.size (d - 1) by omega]
  apply Nat.mod_eq_of_lt
  have h64 : (2 : Nat) ^ 63 < 2 ^ 64 := by norm_num
  omega

theorem bsToUint64List_encode (v : Nat) (hv : v < 2 ^ 64) (rest : List Nat) :
    bsToUint64List (u64ToBytesLE v ++ rest) = v :: bsToUint64List rest := by
  simp only [u64ToBytesLE, List.cons_append, List.nil_append, bsToUint64List]
  congr 1
  omega

theorem bsToUint64List_flatMap (l : List Nat) (hl : ∀ s ∈ l, s < 2 ^ 64) :
    bsToUint64List (l.flatMap u64ToBytesLE) = l ∧
    (l.flatMap u64ToBytesLE).length = 8 * l.length := by
  induction l with
  | nil => simp [bsToUint64List]
  | cons a t ih =>
    have ha : a < 2 ^ 64 := hl a (by simp)
    obtain ⟨ih1, ih2⟩ := ih fun s hs => hl s (by simp [hs])
    constructor
    · rw [List.flatMap_cons, bsToUint64List_encode a ha, ih1]
    · rw [List.flatMap_cons, List.length_append, ih2]
      simp [u64ToBytesLE]
      omega

/- ---------------------------------------------------------------- -/
/- Claim theorems                                                   -/
/- ---------------------------------------------------------------- -/

/-- C1 (code bug): the writer/reader round-trip fails.  For the DB built
from the single pair (key 5, 3-byte value at file offset 64) at load 0.5
(table-size quotient d = 2), `Freeze` succeeds with seed table [1, 0] and
the writer's `marshalOffsets` stores offset 64 at word 2i and key 5 at
word 2i+1 (i = Find(5) = 0); but the reader's `Find` compares the
requested key against word 2i — the offset — so the lookup of the inserted
key 5 returns ErrNoKey instead of the stored value, whatever the record
stream holds. -/
theorem c1_reader_misreads_writer_table :
    Freeze (1/2 : ℚ) 2 [5] = .ok ⟨[1, 0]⟩ ∧
    marshalOffsets ⟨[1, 0]⟩ [(5, ⟨64, 3⟩)] (List.replicate 4 0) (List.replicate 2 0)
      = some ([64, 5, 0, 0], [3, 0]) ∧
    dbFind [64, 5, 0, 0] [3, 0] ⟨[1, 0]⟩ diskIoErr 5 = .fail .noKey := by
  refine ⟨?_, by decide, by decide⟩
  unfold Freeze
  rw [if_neg (by norm_num)]
  decide

/-- C2 (code bug): a successful `Freeze` need not be injective on the key
set.  For keys {0, 1} at load 0.5 (d = 4, m = 4) both keys land in bucket
0, whose seed is chosen as 2; but the three empty buckets are processed
afterwards and each rewrites `seeds[slot] = 1` with their zero-initialized
`slot = 0`, clobbering the chosen seed.  `Freeze` reports success with
seed table [1, 0, 0, 0] and `Find 0 = Find 1 = 0`. -/
theorem c2_find_not_injective_after_freeze :
    Freeze (1/2 : ℚ) 4 [0, 1] = .ok ⟨[1, 0, 0, 0]⟩ ∧
    (Chd.mk [1, 0, 0, 0]).Find 0 = some 0 ∧
    (Chd.mk [1, 0, 0, 0]).Find 1 = some 0 := by
  refine ⟨?_, by decide, by decide⟩
  unfold Freeze
  rw [if_neg (by norm_num)]
  decide

/-- C3 (code bug): foreign keys are not reliably rejected with KeyNotFound,
and the rejection compares against word 2i, not 2i+1.  For the DB built
from key set {4} (record offset 64, i = Find(4) = 1), the foreign key 64
(not in the key set) satisfies Find(64) = 1 and matches the stored OFFSET
at word 2i, so it passes the reader's only rejection check; the reader
then seeks to file offset 4 (the stored key at word 2i+1) and returns the
record-decode outcome — here a corrupt-record error, not ErrNoKey. -/
theorem c3_foreign_key_not_rejected :
    Freeze (1/2 : ℚ) 2 [4] = .ok ⟨[1, 0]⟩ ∧
    marshalOffsets ⟨[1, 0]⟩ [(4, ⟨64, 3⟩)] (List.replicate 4 0) (List.replicate 2 0)
      = some ([0, 0, 64, 4], [0, 3]) ∧
    (64 : Nat) ∉ [4] ∧
    dbFind [0, 0, 64, 4] [0, 3] ⟨[1, 0]⟩ diskCorrupt 64 = .fail .corrupt ∧
    FindOut.fail DBErr.corrupt ≠ FindOut.fail DBErr.noKey := by
  refine ⟨?_, by decide, by decide, by decide, by decide⟩
  unfold Freeze
  rw [if_neg (by norm_num)]
  decide

/-- C4 counterexample: the source hash takes no salt and does not compute
the spec's salted realization: at seed 1, key 7, m = 8 the code's
`rhash` yields 3 while the spec's salted formula (`rhashSpec`, salt 0)
yields 0. -/
theorem c4_no_salt_counterexample :
    rhash 1 7 8 = 3 ∧ rhashSpec 1 7 8 0 = 0 ∧
    rhashSpec 1 7 8 0 ≠ rhash 1 7 8 := by
  decide

/-- C4 (amended): `rhash(seed, key, m)` takes no salt — it computes
`h = key + ^seed`, `h ^= mix(h)`, `h *= 0x880355f21e6d1965` and masks with
`m - 1` — and its result lies in [0, m) for every power of two
m = 2^k (k ≤ 63, as produced by `nextpow2` for nonempty builders). -/
theorem c4_rhash_in_range (seed key k : Nat) (hk : k ≤ 63) :
    rhash seed key (2 ^ k) < 2 ^ k := by
  have h := rhash_le seed key (2 ^ k)
  have hm : ((2 : Nat) ^ k + (2 ^ 64 - 1)) % 2 ^ 64 = 2 ^ k - 1 := by
    have h1 : (2 : Nat) ^ k ≤ 2 ^ 63 := Nat.pow_le_pow_right (by norm_num) hk
    have h2 : (2 : Nat) ^ 63 < 2 ^ 64 := by norm_num
    have h3 : 0 < (2 : Nat) ^ k := Nat.two_pow_pos k
    omega
  rw [hm] at h
  have hp := Nat.two_pow_pos k
  omega

/-- Witness for C4: the in-range bound at seed 0, key 0, m = 4. -/
theorem c4_witness : rhash 0 0 (2 ^ 2) < 2 ^ 2 :=
  c4_rhash_in_range 0 0 2 (by norm_num)

/-- C5 counterexample: the marshalled form of a one-seed table is 16 bytes
with byte 1 equal to 0 — there is no seed-width byte (the claim requires
byte 1 ∈ {1, 2, 4}) and no salt in bytes 8-15 (they are the seed body),
and the total is 8 + 8m, not 16 + m·width. -/
theorem c5_header_not_as_claimed :
    chdMarshal ⟨[0]⟩ = [1, 0, 0, 0, 0, 0, 0, 0, 0, 0, 0, 0, 0, 0, 0, 0] ∧
    (chdMarshal ⟨[0]⟩).length = 16 ∧
    (chdMarshal ⟨[0]⟩)[1]? = some 0 ∧
    (chdMarshal ⟨[0]⟩)[1]? ≠ some 1 ∧
    (chdMarshal ⟨[0]⟩)[1]? ≠ some 2 ∧
    (chdMarshal ⟨[0]⟩)[1]? ≠ some 4 := by
  decide

/-- C5 (amended): `MarshalBinary` writes an 8-byte header — byte 0 the
version (1), bytes 1-7 reserved zero, no width byte and no salt — followed
by the seeds as full-width 8-byte words (total 8 + 8m bytes), and
`UnmarshalBinaryMmap` recovers exactly the marshalled seed table. -/
theorem c5_marshal_format (c : Chd) (hs : ∀ s ∈ c.seeds, s < 2 ^ 64) :
    (chdMarshal c).length = 8 + 8 * c.seeds.length ∧
    (chdMarshal c).take 8 = [1, 0, 0, 0, 0, 0, 0, 0] ∧
    chdUnmarshal (chdMarshal c) = .ok c := by
  obtain ⟨h1, h2⟩ := bsToUint64List_flatMap c.seeds hs
  refine ⟨?_, ?_, ?_⟩
  · simp [chdMarshal, h2]
    omega
  · simp [chdMarshal]
  · show chdUnmarshal
      (1 :: (0 :: 0 :: 0 :: 0 :: 0 :: 0 :: 0 :: c.seeds.flatMap u64ToBytesLE)) = .ok c
    simp only [chdUnmarshal]
    rw [if_neg (by simp), if_neg (by simp)]
    simp only [List.drop_succ_cons, List.drop_zero, h1]

/-- Witness for C5: the format facts at the concrete table [3, 4]. -/
theorem c5_witness :
    (chdMarshal ⟨[3, 4]⟩).length = 8 + 8 * (Chd.mk [3, 4]).seeds.length ∧
    (chdMarshal ⟨[3, 4]⟩).take 8 = [1, 0, 0, 0, 0, 0, 0, 0] ∧
    chdUnmarshal (chdMarshal ⟨[3, 4]⟩) = .ok ⟨[3, 4]⟩ :=
  c5_marshal_format ⟨[3, 4]⟩ (by decide)

/-- C6 counterexample: freezing an empty builder (N = 0, so the truncated
quotient is 0 for every load) succeeds and yields table length
m = nextpow2(0) = 0, which is not a power of two — refuting "m is always a
power of two". -/
theorem c6_empty_freeze_not_pow2 :
    Freeze (1/2 : ℚ) 0 [] = .ok ⟨[]⟩ ∧
    Chd.Len ⟨[]⟩ = 0 ∧
    nextpow2 0 = 0 ∧
    ¬∃ k : Nat, (0 : Nat) = 2 ^ k := by
  refine ⟨?_, by decide, by decide, ?_⟩
  · unfold Freeze
    rw [if_neg (by norm_num)]
    decide
  · rintro ⟨k, hk⟩
    have := Nat.two_pow_pos k
    omega

/-- C6 (amended): the table size is m = nextpow2(d) where d is the
TRUNCATED quotient `uint64(float64(N)/load)` (not a ceiling); for every
d ≥ 1 (every nonempty builder) m = 2^(bit-size of d-1) is a power of two
with d ≤ m, and the claim's examples hold: d = 2 for N=1, load=0.5 gives
m = 2, and d = 1111 for N=1000, load=0.9 gives m = 2048. -/
theorem c6_table_sizing :
    (∀ d : Nat, 1 ≤ d → d ≤ 2 ^ 63 →
      nextpow2 d = 2 ^ Nat.size (d - 1) ∧ d ≤ nextpow2 d) ∧
    nextpow2 2 = 2 ∧ nextpow2 1111 = 2048 := by
  refine ⟨fun d h1 h2 => ?_, by decide, by decide⟩
  have he := nextpow2_eq_size d h1 h2
  refine ⟨he, ?_⟩
  have := Nat.lt_size_self (d - 1)
  omega

/-- Witness for C6: the power-of-two shape at d = 4. -/
theorem c6_witness : nextpow2 4 = 2 ^ Nat.size (4 - 1) ∧ 4 ≤ nextpow2 4 :=
  c6_table_sizing.1 4 (by norm_num) (by norm_num)

/-- C7 counterexample: `Freeze` at load = 1 (which the claim says must be
rejected as InvalidLoad) proceeds and succeeds: with one key (42) and
quotient d = 1 it returns the frozen table [1]. -/
theorem c7_load_one_accepted :
    Freeze (1 : ℚ) 1 [42] = .ok ⟨[1]⟩ ∧
    Freeze (1 : ℚ) 1 [42] ≠ .invalidLoad := by
  have h : Freeze (1 : ℚ) 1 [42] = .ok ⟨[1]⟩ := by
    unfold Freeze
    rw [if_neg (by norm_num)]
    decide
  exact ⟨h, by rw [h]; decide⟩

/-- C7 (amended): `Freeze(load)` returns InvalidLoad exactly when
load < 0 or load > 1 (the source check); the boundary loads 0 and 1 are
accepted, and every accepted load yields either a frozen table or
ConstructionFailed — never InvalidLoad. -/
theorem c7_invalid_load_iff (load : ℚ) (d : Nat) (keys : List Nat) :
    Freeze load d keys = .invalidLoad ↔ (load < 0 ∨ load > 1) := by
  by_cases h : load < 0 ∨ load > 1
  · simp [Freeze, if_pos h, h]
  · simp only [Freeze, if_neg h]
    constructor
    · intro heq
      rcases hpb : placeBuckets (nextpow2 d) (sortBuckets (mkBuckets keys (nextpow2 d)))
          [] (List.replicate (nextpow2 d) 0) with _ | s
      · rw [hpb] at heq
        exact absurd heq (by simp)
      · rw [hpb] at heq
        exact absurd heq (by simp)
    · intro hc
      exact absurd hc h

/-- C8 counterexample: a version-1 buffer whose body (3 bytes) is not a
multiple of the seed width unmarshals successfully (with the body silently
truncated to zero seeds) — there is no CorruptIndex check. -/
theorem c8_no_body_length_check :
    chdUnmarshal [1, 0, 0, 0, 0, 0, 0, 0, 170, 187, 204] = .ok ⟨[]⟩ := by
  decide

/-- C8 (amended): for buffers of at least the 8 header bytes,
`UnmarshalBinaryMmap` fails (with the unsupported-version error) exactly
when the version byte differs from 1, and every version-1 buffer
unmarshals successfully to the ⌊body/8⌋ truncated seed words — no body
length check is performed. -/
theorem c8_unmarshal_failure_modes (buf : List Nat) (h : 8 ≤ buf.length) :
    (chdUnmarshal buf = .badVersion ↔ buf.head? ≠ some 1) ∧
    (buf.head? = some 1 →
      chdUnmarshal buf = .ok ⟨bsToUint64List (buf.drop 8)⟩) := by
  match buf with
  | [] => simp at h
  | b0 :: rest =>
    have hlen : ¬rest.length < 7 := by
      simp only [List.length_cons] at h
      omega
    simp only [chdUnmarshal, if_neg hlen, List.head?_cons, List.drop_succ_cons]
    constructor
    · constructor
      · intro heq
        by_cases hb : b0 = 1
        · subst hb
          simp at heq
        · simp [hb]
      · intro hne
        have hb : b0 ≠ 1 := by simpa using hne
        simp [hb]
    · intro hhead
      have hb : b0 = 1 := by simpa using hhead
      subst hb
      simp

/-- Witness for C8: a version-2 header is rejected. -/
theorem c8_witness : chdUnmarshal [2, 0, 0, 0, 0, 0, 0, 0] = .badVersion :=
  (c8_unmarshal_failure_modes [2, 0, 0, 0, 0, 0, 0, 0] (by norm_num)).1.mpr (by decide)

/-- C9 (code bug): a database frozen with N = 0 keys opens (Freeze of the
empty key list succeeds with an empty seed table), but every subsequent
lookup panics instead of returning absent: `Chd.Find` masks with
`m - 1 = 2^64 - 1`, so the seed-table index is the raw 64-bit hash and
`seeds[h]` is out of range for the empty table (modelled by `none`). -/
theorem c9_empty_db_lookup_crashes :
    Freeze (3/4 : ℚ) 0 [] = .ok ⟨[]⟩ ∧
    ∀ k : Nat, (Chd.mk []).Find k = none := by
  constructor
  · unfold Freeze
    rw [if_neg (by norm_num)]
    decide
  · intro k
    simp [Chd.Find]

/-- C10: the boolean-form `Lookup` returns (nil, false) whenever `Find`
returns any error at all — ErrNoKey, a corrupt record, or an I/O failure
from seeking/reading — so its caller cannot tell a missing key from a
disk read error. -/
theorem c10_lookup_collapses_errors (offset vlen : List Nat) (c : Chd)
    (disk : Nat → Nat → FindOut) (key : Nat) (e : DBErr)
    (h : dbFind offset vlen c disk key = .fail e) :
    dbLookup offset vlen c disk key = some (none, false) := by
  unfold dbLookup
  rw [h]

/-- Witness for C10: a lookup whose record read fails with an I/O error is
reported as plain absence. -/
theorem c10_witness :
    dbFind [5, 64] [3] ⟨[0]⟩ diskIoErr 5 = .fail .ioErr ∧
    dbLookup [5, 64] [3] ⟨[0]⟩ diskIoErr 5 = some (none, false) :=
  ⟨by decide, c10_lookup_collapses_errors [5, 64] [3] ⟨[0]⟩ diskIoErr 5 .ioErr (by decide)⟩
